import Mathlib

/-!
Verification of the cell-pair inertia-tensor engine
`inertia_tensor_per_object_engine` from
`halotools/mock_observables/pair_counters/marked_cpairs`.

The engine is embedded shallowly: float64 scalars become `ℚ`, C/Cython
integers become `ℤ` with Python division semantics (`Int.ediv` /
`Int.emod`, which agree with Python `//` and `%` for the positive
divisors used here), numpy arrays become lists, and the in-place
accumulation into the `(npts1, 3, 3)` tensor array and the length-`npts1`
weight array becomes explicit state passing of a pair of functions
indexed by sorted point position.
-/

namespace Halotools

/-- One 3x3 tensor entry of the output array `inertia_tensor[i]`. -/
@[ext]
structure Mat3 where
  m00 : ℚ
  m01 : ℚ
  m02 : ℚ
  m10 : ℚ
  m11 : ℚ
  m12 : ℚ
  m20 : ℚ
  m21 : ℚ
  m22 : ℚ
  deriving DecidableEq

/-- The all-zero tensor, the initial value of every `inertia_tensor[i]`
(`np.zeros((npts1, 3, 3))`). -/
def Mat3.zero : Mat3 := ⟨0, 0, 0, 0, 0, 0, 0, 0, 0⟩

/-- Entrywise sum of two tensors. -/
def Mat3.add (A B : Mat3) : Mat3 :=
  ⟨A.m00 + B.m00, A.m01 + B.m01, A.m02 + B.m02,
   A.m10 + B.m10, A.m11 + B.m11, A.m12 + B.m12,
   A.m20 + B.m20, A.m21 + B.m21, A.m22 + B.m22⟩

/-- A secondary (sample-2) point: coordinates and weight, one slot of the
four sorted sample-2 arrays. -/
structure P2 where
  x : ℚ
  y : ℚ
  z : ℚ
  w : ℚ
  deriving DecidableEq

/-- One grid of the double mesh: divisions and cell sizes per axis, the
per-cell point-range boundary array `cell_id_indices` (length ncells+1),
and the sorting permutation `idx_sorted`. -/
structure Mesh where
  num_xdivs : ℤ
  num_ydivs : ℤ
  num_zdivs : ℤ
  xcell_size : ℚ
  ycell_size : ℚ
  zcell_size : ℚ
  cell_id_indices : List ℤ
  idx_sorted : List ℕ

/-- The `RectangularDoubleMesh` metadata read by the engine: box periods,
the periodicity flag `_PBCs` (an int, 0 or 1), per-axis search lengths,
and the two grids. -/
structure DoubleMesh where
  xperiod : ℚ
  yperiod : ℚ
  zperiod : ℚ
  PBCs : ℤ
  search_xlength : ℚ
  search_ylength : ℚ
  search_zlength : ℚ
  mesh1 : Mesh
  mesh2 : Mesh

/-- The integer list `[a, a+1, ..., b-1]`, i.e. Python `range(a, b)`;
empty when `b ≤ a`. -/
def intRange (a b : ℤ) : List ℤ :=
  (List.range (b - a).toNat).map (fun k : ℕ => a + (k : ℤ))

/-- The slice `l[a:b]` of a list, for the in-bounds nonnegative slice
indices produced by `cell_id_indices`. -/
def listSlice {α : Type} (l : List α) (a b : ℤ) : List α :=
  (l.drop a.toNat).take (b - a).toNat

/-- The per-axis coordinate shift of the window branch (source lines
144-149): `-period*PBCs` below the grid, `+period*PBCs` at or above the
grid extent, `0` inside. -/
def axisShift (PBCs : ℤ) (period : ℚ) (ndivs n : ℤ) : ℚ :=
  if n < 0 then -period * (PBCs : ℚ)
  else if ndivs ≤ n then period * (PBCs : ℚ)
  else 0

/-- The per-axis index wrap `n % ndivs` of source line 151, with Python
modulo semantics (result in `[0, ndivs)` for `ndivs > 0`). -/
def axisWrap (n ndivs : ℤ) : ℤ := Int.emod n ndivs

/-- Modelled from the spec: the external utility `unsorting_indices`
(from `....utils`, not part of the reviewed source) which, given the
permutation `p` with `sorted[i] = original[p[i]]`, returns the inverse
permutation `q` with `original[j] = sorted[q[j]]`. -/
def unsorting_indices (p : List ℕ) : List ℕ :=
  (List.range p.length).map (fun j => p.indexOf j)

/-- The body of the innermost `j` loop (source lines 198-228) for a
single secondary point `q`: compute the shifted separation, and if its
square is strictly below `rsmooth_squared`, add the six weighted
products into the primary point's tensor (each off-diagonal product into
both symmetric slots) and the weight into its running weight sum. -/
def pairStep (rsq x1tmp y1tmp z1tmp : ℚ) (acc : Mat3 × ℚ) (q : P2) :
    Mat3 × ℚ :=
  let dx := x1tmp - q.x
  let dy := y1tmp - q.y
  let dz := z1tmp - q.z
  let dsq := dx * dx + dy * dy + dz * dz
  if dsq < rsq then
    (⟨acc.1.m00 + dx * dx * q.w, acc.1.m01 + dx * dy * q.w,
      acc.1.m02 + dx * dz * q.w, acc.1.m10 + dx * dy * q.w,
      acc.1.m11 + dy * dy * q.w, acc.1.m12 + dy * dz * q.w,
      acc.1.m20 + dx * dz * q.w, acc.1.m21 + dy * dz * q.w,
      acc.1.m22 + dz * dz * q.w⟩,
     acc.2 + q.w)
  else acc

/-- The `j` loop over the points of one secondary cell, for a fixed
primary point whose shifted coordinates are `x1tmp, y1tmp, z1tmp`. -/
def pointInnerLoop (rsq x1tmp y1tmp z1tmp : ℚ) (pts2 : List P2)
    (ms : Mat3 × ℚ) : Mat3 × ℚ :=
  pts2.foldl (pairStep rsq x1tmp y1tmp z1tmp) ms

/-- The accumulation state: the tensor array and the weight-sum array,
indexed by sorted sample-1 position. -/
def Acc : Type := (ℕ → Mat3) × (ℕ → ℚ)

/-- Zero-initialized accumulation state (`np.zeros`). -/
def accZero : Acc := (fun _ => Mat3.zero, fun _ => 0)

/-- The `i` loop over the points of the current primary cell (source
lines 185-228) for one visited secondary cell: `pts1` carries each
primary point together with its global sorted index `ifirst1 + i`. -/
def cellPairLoop (rsq x2shift y2shift z2shift : ℚ)
    (pts1 : List (ℕ × (ℚ × ℚ × ℚ))) (pts2 : List P2) (acc : Acc) : Acc :=
  pts1.foldl (fun a gp =>
    let x1tmp := gp.2.1 - x2shift
    let y1tmp := gp.2.2.1 - y2shift
    let z1tmp := gp.2.2.2 - z2shift
    let ms := pointInnerLoop rsq x1tmp y1tmp z1tmp pts2 (a.1 gp.1, a.2 gp.1)
    (fun k => if k = gp.1 then ms.1 else a.1 k,
     fun k => if k = gp.1 then ms.2 else a.2 k)) acc

/-- The engine-local environment: all quantities the window loops read,
precomputed by the engine entry (covering steps, refinement ratios,
cell boundary arrays, and the two sorted point lists). -/
structure Env where
  xperiod : ℚ
  yperiod : ℚ
  zperiod : ℚ
  PBCs : ℤ
  num_y1divs : ℤ
  num_z1divs : ℤ
  num_x2divs : ℤ
  num_y2divs : ℤ
  num_z2divs : ℤ
  num_x2_per_x1 : ℤ
  num_y2_per_y1 : ℤ
  num_z2_per_z1 : ℤ
  num_x2_covering_steps : ℤ
  num_y2_covering_steps : ℤ
  num_z2_covering_steps : ℤ
  cell1_indices : List ℤ
  cell2_indices : List ℤ
  pts1all : List (ℚ × ℚ × ℚ)
  pts2all : List P2

/-- The innermost window loop over `nonPBC_iz2` (source lines 163-228):
compute the z shift and wrap, assemble the linear secondary cell id,
fetch the cell's point range, and if nonempty run the pair loops. -/
def zLoop (E : Env) (rsq : ℚ) (pts1 : List (ℕ × (ℚ × ℚ × ℚ)))
    (x2shift y2shift : ℚ) (ix2 iy2 lo hi : ℤ) (acc : Acc) : Acc :=
  (intRange lo hi).foldl (fun a nz =>
    let z2shift := axisShift E.PBCs E.zperiod E.num_z2divs nz
    let iz2 := axisWrap nz E.num_z2divs
    let icell2 := ix2 * (E.num_y2divs * E.num_z2divs) + iy2 * E.num_z2divs + iz2
    let ifirst2 := E.cell2_indices.getD icell2.toNat 0
    let ilast2 := E.cell2_indices.getD (icell2 + 1).toNat 0
    if 0 < ilast2 - ifirst2 then
      cellPairLoop rsq x2shift y2shift z2shift pts1
        (listSlice E.pts2all ifirst2 ilast2) a
    else a) acc

/-- The window loop over `nonPBC_iy2` (source lines 153-161). -/
def yLoop (E : Env) (rsq : ℚ) (pts1 : List (ℕ × (ℚ × ℚ × ℚ)))
    (x2shift : ℚ) (ix2 ylo yhi zlo zhi : ℤ) (acc : Acc) : Acc :=
  (intRange ylo yhi).foldl (fun a ny =>
    let y2shift := axisShift E.PBCs E.yperiod E.num_y2divs ny
    let iy2 := axisWrap ny E.num_y2divs
    zLoop E rsq pts1 x2shift y2shift ix2 iy2 zlo zhi a) acc

/-- The window loop over `nonPBC_ix2` (source lines 143-151). -/
def xLoop (E : Env) (rsq : ℚ) (pts1 : List (ℕ × (ℚ × ℚ × ℚ)))
    (xlo xhi ylo yhi zlo zhi : ℤ) (acc : Acc) : Acc :=
  (intRange xlo xhi).foldl (fun a nx =>
    let x2shift := axisShift E.PBCs E.xperiod E.num_x2divs nx
    let ix2 := axisWrap nx E.num_x2divs
    yLoop E rsq pts1 x2shift ix2 ylo yhi zlo zhi a) acc

/-- The body of the main loop over one primary cell id (source lines
121-141): fetch the cell's point range; if nonempty, decode the 3D cell
coordinate and run the covering window over secondary cells. -/
def cellLoop (E : Env) (rsq : ℚ) (acc : Acc) (icell1 : ℤ) : Acc :=
  let ifirst1 := E.cell1_indices.getD icell1.toNat 0
  let ilast1 := E.cell1_indices.getD (icell1 + 1).toNat 0
  if 0 < ilast1 - ifirst1 then
    let ix1 := Int.ediv icell1 (E.num_y1divs * E.num_z1divs)
    let iy1 := Int.ediv (icell1 - ix1 * E.num_y1divs * E.num_z1divs) E.num_z1divs
    let iz1 := icell1 - ix1 * E.num_y1divs * E.num_z1divs - iy1 * E.num_z1divs
    let pts1 := List.enumFrom ifirst1.toNat (listSlice E.pts1all ifirst1 ilast1)
    xLoop E rsq pts1
      (ix1 * E.num_x2_per_x1 - E.num_x2_covering_steps)
      ((ix1 + 1) * E.num_x2_per_x1 + E.num_x2_covering_steps)
      (iy1 * E.num_y2_per_y1 - E.num_y2_covering_steps)
      ((iy1 + 1) * E.num_y2_per_y1 + E.num_y2_covering_steps)
      (iz1 * E.num_z2_per_z1 - E.num_z2_covering_steps)
      ((iz1 + 1) * E.num_z2_per_z1 + E.num_z2_covering_steps)
      acc
  else acc

/-- Assembles the environment the loops read: the sorted coordinate and
weight lists (source lines 59-73), the covering steps
`int(np.ceil(search_length / cell_size))` (lines 87-92) and the
refinement ratios `num_2divs // num_1divs` (lines 104-106). -/
def mkEnv (dm : DoubleMesh) (x1in y1in z1in x2in y2in z2in weights2in : List ℚ) :
    Env :=
  { xperiod := dm.xperiod
    yperiod := dm.yperiod
    zperiod := dm.zperiod
    PBCs := dm.PBCs
    num_y1divs := dm.mesh1.num_ydivs
    num_z1divs := dm.mesh1.num_zdivs
    num_x2divs := dm.mesh2.num_xdivs
    num_y2divs := dm.mesh2.num_ydivs
    num_z2divs := dm.mesh2.num_zdivs
    num_x2_per_x1 := Int.ediv dm.mesh2.num_xdivs dm.mesh1.num_xdivs
    num_y2_per_y1 := Int.ediv dm.mesh2.num_ydivs dm.mesh1.num_ydivs
    num_z2_per_z1 := Int.ediv dm.mesh2.num_zdivs dm.mesh1.num_zdivs
    num_x2_covering_steps := ⌈dm.search_xlength / dm.mesh2.xcell_size⌉
    num_y2_covering_steps := ⌈dm.search_ylength / dm.mesh2.ycell_size⌉
    num_z2_covering_steps := ⌈dm.search_zlength / dm.mesh2.zcell_size⌉
    cell1_indices := dm.mesh1.cell_id_indices
    cell2_indices := dm.mesh2.cell_id_indices
    pts1all := dm.mesh1.idx_sorted.map
      (fun k => (x1in.getD k 0, y1in.getD k 0, z1in.getD k 0))
    pts2all := dm.mesh2.idx_sorted.map
      (fun k => ⟨x2in.getD k 0, y2in.getD k 0, z2in.getD k 0, weights2in.getD k 0⟩) }

/-- The engine `inertia_tensor_per_object_engine`: square the smoothing
radius (line 49), sort both samples into cell order (lines 59-73), run
the main loop over the assigned primary-cell range starting from
zero-filled outputs, and un-sort the two outputs back to the caller's
original sample-1 ordering (lines 231-237). -/
def inertia_tensor_per_object_engine (dm : DoubleMesh)
    (x1in y1in z1in x2in y2in z2in weights2in : List ℚ)
    (rsmooth : ℚ) (cell1_tuple : ℤ × ℤ) : List Mat3 × List ℚ :=
  let rsmooth_squared := rsmooth * rsmooth
  let E := mkEnv dm x1in y1in z1in x2in y2in z2in weights2in
  let acc := (intRange cell1_tuple.1 cell1_tuple.2).foldl
    (cellLoop E rsmooth_squared) accZero
  let idx_unsorted := unsorting_indices dm.mesh1.idx_sorted
  (idx_unsorted.map (fun s => acc.1 s), idx_unsorted.map (fun s => acc.2 s))

/-- Modelled from the spec: the skip guard the spec prescribes for
non-periodic axes - an unwrapped index outside `[0, ndivs)` must be
skipped, never wrapped, when periodicity is disabled. -/
def skipAxis (PBCs ndivs n : ℤ) : Bool :=
  PBCs == 0 && (n < 0 || ndivs ≤ n)

/-- Modelled from the spec: the innermost window loop as the spec
prescribes it, identical to `zLoop` except that a non-periodic
out-of-range z index is skipped entirely. -/
def spec_skip_zLoop (E : Env) (rsq : ℚ) (pts1 : List (ℕ × (ℚ × ℚ × ℚ)))
    (x2shift y2shift : ℚ) (ix2 iy2 lo hi : ℤ) (acc : Acc) : Acc :=
  (intRange lo hi).foldl (fun a nz =>
    if skipAxis E.PBCs E.num_z2divs nz then a else
    let z2shift := axisShift E.PBCs E.zperiod E.num_z2divs nz
    let iz2 := axisWrap nz E.num_z2divs
    let icell2 := ix2 * (E.num_y2divs * E.num_z2divs) + iy2 * E.num_z2divs + iz2
    let ifirst2 := E.cell2_indices.getD icell2.toNat 0
    let ilast2 := E.cell2_indices.getD (icell2 + 1).toNat 0
    if 0 < ilast2 - ifirst2 then
      cellPairLoop rsq x2shift y2shift z2shift pts1
        (listSlice E.pts2all ifirst2 ilast2) a
    else a) acc

/-- Modelled from the spec: the y window loop with the skip guard. -/
def spec_skip_yLoop (E : Env) (rsq : ℚ) (pts1 : List (ℕ × (ℚ × ℚ × ℚ)))
    (x2shift : ℚ) (ix2 ylo yhi zlo zhi : ℤ) (acc : Acc) : Acc :=
  (intRange ylo yhi).foldl (fun a ny =>
    if skipAxis E.PBCs E.num_y2divs ny then a else
    let y2shift := axisShift E.PBCs E.yperiod E.num_y2divs ny
    let iy2 := axisWrap ny E.num_y2divs
    spec_skip_zLoop E rsq pts1 x2shift y2shift ix2 iy2 zlo zhi a) acc

/-- Modelled from the spec: the x window loop with the skip guard. -/
def spec_skip_xLoop (E : Env) (rsq : ℚ) (pts1 : List (ℕ × (ℚ × ℚ × ℚ)))
    (xlo xhi ylo yhi zlo zhi : ℤ) (acc : Acc) : Acc :=
  (intRange xlo xhi).foldl (fun a nx =>
    if skipAxis E.PBCs E.num_x2divs nx then a else
    let x2shift := axisShift E.PBCs E.xperiod E.num_x2divs nx
    let ix2 := axisWrap nx E.num_x2divs
    spec_skip_yLoop E rsq pts1 x2shift ix2 ylo yhi zlo zhi a) acc

/-- Modelled from the spec: the per-primary-cell body using the skipping
window loops. -/
def spec_skip_cellLoop (E : Env) (rsq : ℚ) (acc : Acc) (icell1 : ℤ) : Acc :=
  let ifirst1 := E.cell1_indices.getD icell1.toNat 0
  let ilast1 := E.cell1_indices.getD (icell1 + 1).toNat 0
  if 0 < ilast1 - ifirst1 then
    let ix1 := Int.ediv icell1 (E.num_y1divs * E.num_z1divs)
    let iy1 := Int.ediv (icell1 - ix1 * E.num_y1divs * E.num_z1divs) E.num_z1divs
    let iz1 := icell1 - ix1 * E.num_y1divs * E.num_z1divs - iy1 * E.num_z1divs
    let pts1 := List.enumFrom ifirst1.toNat (listSlice E.pts1all ifirst1 ilast1)
    spec_skip_xLoop E rsq pts1
      (ix1 * E.num_x2_per_x1 - E.num_x2_covering_steps)
      ((ix1 + 1) * E.num_x2_per_x1 + E.num_x2_covering_steps)
      (iy1 * E.num_y2_per_y1 - E.num_y2_covering_steps)
      ((iy1 + 1) * E.num_y2_per_y1 + E.num_y2_covering_steps)
      (iz1 * E.num_z2_per_z1 - E.num_z2_covering_steps)
      ((iz1 + 1) * E.num_z2_per_z1 + E.num_z2_covering_steps)
      acc
  else acc

/-- Modelled from the spec: the engine as the spec's words describe it
for claim C1 - identical to `inertia_tensor_per_object_engine` except
that on a non-periodic axis every unwrapped window index outside
`[0, num_divs)` is skipped entirely instead of being wrapped. -/
def spec_skip_engine (dm : DoubleMesh)
    (x1in y1in z1in x2in y2in z2in weights2in : List ℚ)
    (rsmooth : ℚ) (cell1_tuple : ℤ × ℤ) : List Mat3 × List ℚ :=
  let rsmooth_squared := rsmooth * rsmooth
  let E := mkEnv dm x1in y1in z1in x2in y2in z2in weights2in
  let acc := (intRange cell1_tuple.1 cell1_tuple.2).foldl
    (spec_skip_cellLoop E rsmooth_squared) accZero
  let idx_unsorted := unsorting_indices dm.mesh1.idx_sorted
  (idx_unsorted.map (fun s => acc.1 s), idx_unsorted.map (fun s => acc.2 s))

/-- Modelled from the spec: the total weight one primary point at `p`
must receive - every secondary point whose separation, including the
wrapped periodic images when PBC is enabled, lies strictly within the
smoothing radius contributes its weight exactly once (once per periodic
image within the radius). -/
def specWeightSum (PBCs : ℤ) (xperiod yperiod zperiod rsmooth : ℚ)
    (p : ℚ × ℚ × ℚ) (pts2 : List P2) : ℚ :=
  let shifts : ℚ → List ℚ := fun per => if PBCs = 1 then [-per, 0, per] else [0]
  (pts2.map (fun q =>
    ((shifts xperiod).map (fun sx =>
      ((shifts yperiod).map (fun sy =>
        ((shifts zperiod).map (fun sz =>
          let dx := p.1 - sx - q.x
          let dy := p.2.1 - sy - q.y
          let dz := p.2.2 - sz - q.z
          if dx * dx + dy * dy + dz * dz < rsmooth * rsmooth then q.w
          else 0)).sum)).sum)).sum)).sum

/-- A heap of numpy float64 buffers, used to state the frame property of
claim C10: `store` maps a buffer id to its contents, ids below `next`
are allocated. -/
structure NpHeap where
  store : ℕ → List ℚ
  next : ℕ

/-- Allocation of a fresh buffer (`np.zeros`, or the fresh result buffer
of numpy advanced indexing / `np.array`): the new buffer gets the next
unused id. -/
def NpHeap.alloc (h : NpHeap) (content : List ℚ) : NpHeap × ℕ :=
  (⟨fun i => if i = h.next then content else h.store i, h.next + 1⟩, h.next)

/-- Read one element of a buffer (a memoryview read). -/
def NpHeap.read (h : NpHeap) (bid pos : ℕ) : ℚ := (h.store bid).getD pos 0

/-- Overwrite one element of a buffer (a memoryview write). -/
def NpHeap.writeAt (h : NpHeap) (bid pos : ℕ) (v : ℚ) : NpHeap :=
  ⟨fun i => if i = bid then (h.store bid).set pos v else h.store i, h.next⟩

/-- numpy advanced indexing `arr[idx]`: it always copies, so the result
is a freshly allocated buffer, never a view of `src`. -/
def npFancyIndex (h : NpHeap) (src : ℕ) (idx : List ℕ) : NpHeap × ℕ :=
  h.alloc (idx.map (fun k => (h.store src).getD k 0))

/-- The innermost pair body of the engine acting on the buffer heap: the
nine `+=` writes into the flattened `(npts1, 3, 3)` tensor buffer `tid`
(entry `[g, r, c]` at position `9*g + 3*r + c`, written in source order
00, 11, 22, 01, 10, 02, 20, 12, 21) and the `+=` into the weight-sum
buffer `sid`. -/
def hPairStep (tid sid g : ℕ) (rsq x1tmp y1tmp z1tmp : ℚ) (h : NpHeap)
    (q : P2) : NpHeap :=
  let dx := x1tmp - q.x
  let dy := y1tmp - q.y
  let dz := z1tmp - q.z
  let dsq := dx * dx + dy * dy + dz * dz
  if dsq < rsq then
    let h1 := h.writeAt tid (9 * g) (h.read tid (9 * g) + dx * dx * q.w)
    let h2 := h1.writeAt tid (9 * g + 4) (h1.read tid (9 * g + 4) + dy * dy * q.w)
    let h3 := h2.writeAt tid (9 * g + 8) (h2.read tid (9 * g + 8) + dz * dz * q.w)
    let h4 := h3.writeAt tid (9 * g + 1) (h3.read tid (9 * g + 1) + dx * dy * q.w)
    let h5 := h4.writeAt tid (9 * g + 3) (h4.read tid (9 * g + 3) + dx * dy * q.w)
    let h6 := h5.writeAt tid (9 * g + 2) (h5.read tid (9 * g + 2) + dx * dz * q.w)
    let h7 := h6.writeAt tid (9 * g + 6) (h6.read tid (9 * g + 6) + dx * dz * q.w)
    let h8 := h7.writeAt tid (9 * g + 5) (h7.read tid (9 * g + 5) + dy * dz * q.w)
    let h9 := h8.writeAt tid (9 * g + 7) (h8.read tid (9 * g + 7) + dy * dz * q.w)
    h9.writeAt sid g (h9.read sid g + q.w)
  else h

/-- Heap version of the `i` loop over primary-cell points for one
visited secondary cell. -/
def hCellPairLoop (tid sid : ℕ) (rsq x2shift y2shift z2shift : ℚ)
    (pts1 : List (ℕ × (ℚ × ℚ × ℚ))) (pts2 : List P2) (h : NpHeap) : NpHeap :=
  pts1.foldl (fun hh gp =>
    let x1tmp := gp.2.1 - x2shift
    let y1tmp := gp.2.2.1 - y2shift
    let z1tmp := gp.2.2.2 - z2shift
    pts2.foldl (hPairStep tid sid gp.1 rsq x1tmp y1tmp z1tmp) hh) h

/-- Heap version of the z window loop. -/
def hzLoop (E : Env) (tid sid : ℕ) (rsq : ℚ) (pts1 : List (ℕ × (ℚ × ℚ × ℚ)))
    (x2shift y2shift : ℚ) (ix2 iy2 lo hi : ℤ) (h : NpHeap) : NpHeap :=
  (intRange lo hi).foldl (fun hh nz =>
    let z2shift := axisShift E.PBCs E.zperiod E.num_z2divs nz
    let iz2 := axisWrap nz E.num_z2divs
    let icell2 := ix2 * (E.num_y2divs * E.num_z2divs) + iy2 * E.num_z2divs + iz2
    let ifirst2 := E.cell2_indices.getD icell2.toNat 0
    let ilast2 := E.cell2_indices.getD (icell2 + 1).toNat 0
    if 0 < ilast2 - ifirst2 then
      hCellPairLoop tid sid rsq x2shift y2shift z2shift pts1
        (listSlice E.pts2all ifirst2 ilast2) hh
    else hh) h

/-- Heap version of the y window loop. -/
def hyLoop (E : Env) (tid sid : ℕ) (rsq : ℚ) (pts1 : List (ℕ × (ℚ × ℚ × ℚ)))
    (x2shift : ℚ) (ix2 ylo yhi zlo zhi : ℤ) (h : NpHeap) : NpHeap :=
  (intRange ylo yhi).foldl (fun hh ny =>
    let y2shift := axisShift E.PBCs E.yperiod E.num_y2divs ny
    let iy2 := axisWrap ny E.num_y2divs
    hzLoop E tid sid rsq pts1 x2shift y2shift ix2 iy2 zlo zhi hh) h

/-- Heap version of the x window loop. -/
def hxLoop (E : Env) (tid sid : ℕ) (rsq : ℚ) (pts1 : List (ℕ × (ℚ × ℚ × ℚ)))
    (xlo xhi ylo yhi zlo zhi : ℤ) (h : NpHeap) : NpHeap :=
  (intRange xlo xhi).foldl (fun hh nx =>
    let x2shift := axisShift E.PBCs E.xperiod E.num_x2divs nx
    let ix2 := axisWrap nx E.num_x2divs
    hyLoop E tid sid rsq pts1 x2shift ix2 ylo yhi zlo zhi hh) h

/-- Heap version of the main-loop body for one primary cell. -/
def hCellLoop (E : Env) (tid sid : ℕ) (rsq : ℚ) (h : NpHeap) (icell1 : ℤ) :
    NpHeap :=
  let ifirst1 := E.cell1_indices.getD icell1.toNat 0
  let ilast1 := E.cell1_indices.getD (icell1 + 1).toNat 0
  if 0 < ilast1 - ifirst1 then
    let ix1 := Int.ediv icell1 (E.num_y1divs * E.num_z1divs)
    let iy1 := Int.ediv (icell1 - ix1 * E.num_y1divs * E.num_z1divs) E.num_z1divs
    let iz1 := icell1 - ix1 * E.num_y1divs * E.num_z1divs - iy1 * E.num_z1divs
    let pts1 := List.enumFrom ifirst1.toNat (listSlice E.pts1all ifirst1 ilast1)
    hxLoop E tid sid rsq pts1
      (ix1 * E.num_x2_per_x1 - E.num_x2_covering_steps)
      ((ix1 + 1) * E.num_x2_per_x1 + E.num_x2_covering_steps)
      (iy1 * E.num_y2_per_y1 - E.num_y2_covering_steps)
      ((iy1 + 1) * E.num_y2_per_y1 + E.num_y2_covering_steps)
      (iz1 * E.num_z2_per_z1 - E.num_z2_covering_steps)
      ((iz1 + 1) * E.num_z2_per_z1 + E.num_z2_covering_steps)
      h
  else h

/-- The engine acting on the buffer heap, with the caller's seven input
arrays held in pre-existing buffers `x1id .. w2id`: it copies each input
into a freshly allocated sorted buffer (numpy advanced indexing, source
lines 59-73), allocates the zero-filled tensor and weight-sum buffers,
runs the main loop writing only into those two buffers, and allocates
fresh un-sorted output buffers (lines 231-237). Returns the final heap
and the ids of the two output buffers. -/
def heap_engine (h : NpHeap) (dm : DoubleMesh)
    (x1id y1id z1id x2id y2id z2id w2id : ℕ) (rsmooth : ℚ)
    (cell1_tuple : ℤ × ℤ) : NpHeap × ℕ × ℕ :=
  let rsmooth_squared := rsmooth * rsmooth
  let a1 := npFancyIndex h x1id dm.mesh1.idx_sorted
  let a2 := npFancyIndex a1.1 y1id dm.mesh1.idx_sorted
  let a3 := npFancyIndex a2.1 z1id dm.mesh1.idx_sorted
  let a4 := npFancyIndex a3.1 x2id dm.mesh2.idx_sorted
  let a5 := npFancyIndex a4.1 y2id dm.mesh2.idx_sorted
  let a6 := npFancyIndex a5.1 z2id dm.mesh2.idx_sorted
  let a7 := npFancyIndex a6.1 w2id dm.mesh2.idx_sorted
  let npts1 := dm.mesh1.idx_sorted.length
  let a8 := a7.1.alloc (List.replicate (9 * npts1) 0)
  let a9 := a8.1.alloc (List.replicate npts1 0)
  let h9 := a9.1
  let tid := a8.2
  let sid := a9.2
  let E : Env :=
    { xperiod := dm.xperiod
      yperiod := dm.yperiod
      zperiod := dm.zperiod
      PBCs := dm.PBCs
      num_y1divs := dm.mesh1.num_ydivs
      num_z1divs := dm.mesh1.num_zdivs
      num_x2divs := dm.mesh2.num_xdivs
      num_y2divs := dm.mesh2.num_ydivs
      num_z2divs := dm.mesh2.num_zdivs
      num_x2_per_x1 := Int.ediv dm.mesh2.num_xdivs dm.mesh1.num_xdivs
      num_y2_per_y1 := Int.ediv dm.mesh2.num_ydivs dm.mesh1.num_ydivs
      num_z2_per_z1 := Int.ediv dm.mesh2.num_zdivs dm.mesh1.num_zdivs
      num_x2_covering_steps := ⌈dm.search_xlength / dm.mesh2.xcell_size⌉
      num_y2_covering_steps := ⌈dm.search_ylength / dm.mesh2.ycell_size⌉
      num_z2_covering_steps := ⌈dm.search_zlength / dm.mesh2.zcell_size⌉
      cell1_indices := dm.mesh1.cell_id_indices
      cell2_indices := dm.mesh2.cell_id_indices
      pts1all := (h9.store a1.2).zip ((h9.store a2.2).zip (h9.store a3.2))
      pts2all := ((h9.store a4.2).zip ((h9.store a5.2).zip
        ((h9.store a6.2).zip (h9.store a7.2)))).map
        (fun t => ⟨t.1, t.2.1, t.2.2.1, t.2.2.2⟩) }
  let h10 := (intRange cell1_tuple.1 cell1_tuple.2).foldl
    (hCellLoop E tid sid rsmooth_squared) h9
  let idx_unsorted := unsorting_indices dm.mesh1.idx_sorted
  let a10 := h10.alloc ((idx_unsorted.map (fun s =>
    (List.range 9).map (fun e => h10.read tid (9 * s + e)))).flatten)
  let a11 := a10.1.alloc (idx_unsorted.map (fun s => h10.read sid s))
  (a11.1, a10.2, a11.2)

/-! Concrete configurations used by counterexamples and witnesses. -/

/-- A 2x1x1 grid over a 4x4x4 box with one primary point in cell 0
(x slab `[0,2)`). -/
def meshC1a : Mesh :=
  { num_xdivs := 2, num_ydivs := 1, num_zdivs := 1,
    xcell_size := 2, ycell_size := 4, zcell_size := 4,
    cell_id_indices := [0, 1, 1], idx_sorted := [0] }

/-- A 2x1x1 grid over a 4x4x4 box with one secondary point in cell 1
(x slab `[2,4)`). -/
def meshC1b : Mesh :=
  { num_xdivs := 2, num_ydivs := 1, num_zdivs := 1,
    xcell_size := 2, ycell_size := 4, zcell_size := 4,
    cell_id_indices := [0, 0, 1], idx_sorted := [0] }

/-- Non-periodic double mesh whose x covering window `[-1, 2)` extends
below the grid: used for claim C1. -/
def dmC1 : DoubleMesh :=
  { xperiod := 4, yperiod := 4, zperiod := 4, PBCs := 0,
    search_xlength := 1, search_ylength := 0, search_zlength := 0,
    mesh1 := meshC1a, mesh2 := meshC1b }

/-- A single-cell 1x1x1 grid over a 10x10x10 box holding one point. -/
def meshOne : Mesh :=
  { num_xdivs := 1, num_ydivs := 1, num_zdivs := 1,
    xcell_size := 10, ycell_size := 10, zcell_size := 10,
    cell_id_indices := [0, 1], idx_sorted := [0] }

/-- Periodic double mesh whose x covering window `[-2, 3)` spans five
cells on a one-cell axis: used for claim C2. -/
def dmC2 : DoubleMesh :=
  { xperiod := 10, yperiod := 10, zperiod := 10, PBCs := 1,
    search_xlength := 11, search_ylength := 0, search_zlength := 0,
    mesh1 := meshOne, mesh2 := meshOne }

/-- Minimal non-periodic single-cell double mesh: used for claim C3. -/
def dmC3 : DoubleMesh :=
  { xperiod := 10, yperiod := 10, zperiod := 10, PBCs := 0,
    search_xlength := 0, search_ylength := 0, search_zlength := 0,
    mesh1 := meshOne, mesh2 := meshOne }

/-- A 5x1x1 grid of x slabs of width 2 over a 10x10x10 box holding one
primary point in cell 0. -/
def meshC5a : Mesh :=
  { num_xdivs := 5, num_ydivs := 1, num_zdivs := 1,
    xcell_size := 2, ycell_size := 10, zcell_size := 10,
    cell_id_indices := [0, 1, 1, 1, 1, 1], idx_sorted := [0] }

/-- A 5x1x1 grid of x slabs of width 2 over a 10x10x10 box holding one
secondary point in cell 4 (x slab `[8,10)`). -/
def meshC5b : Mesh :=
  { num_xdivs := 5, num_ydivs := 1, num_zdivs := 1,
    xcell_size := 2, ycell_size := 10, zcell_size := 10,
    cell_id_indices := [0, 0, 0, 0, 0, 1], idx_sorted := [0] }

/-- Periodic double mesh for the periodic wrap scenario of claim C5. -/
def dmC5 : DoubleMesh :=
  { xperiod := 10, yperiod := 10, zperiod := 10, PBCs := 1,
    search_xlength := 1, search_ylength := 0, search_zlength := 0,
    mesh1 := meshC5a, mesh2 := meshC5b }

/-- Periodic single-cell double mesh with x search length 2 (covering
one extra cell per side): used for claims C6, C7 and C8. -/
def dmOneP : DoubleMesh :=
  { xperiod := 10, yperiod := 10, zperiod := 10, PBCs := 1,
    search_xlength := 2, search_ylength := 0, search_zlength := 0,
    mesh1 := meshOne, mesh2 := meshOne }

/-- Entrywise sum on the per-point accumulator pair. -/
def msAdd (a b : Mat3 × ℚ) : Mat3 × ℚ := (a.1.add b.1, a.2 + b.2)

/-- Pointwise sum of two accumulation states. -/
def accAdd (a b : Acc) : Acc :=
  (fun k => (a.1 k).add (b.1 k), fun k => a.2 k + b.2 k)

/-- Symmetry of one tensor: the three off-diagonal mirror pairs agree. -/
def SymmM (M : Mat3) : Prop :=
  M.m01 = M.m10 ∧ M.m02 = M.m20 ∧ M.m12 = M.m21

/-- The list of (wrapped cell index, coordinate shift) pairs one axis of
the covering window visits, in window order: entry `n` of the window
`[lo, hi)` is visited as wrapped index `n % ndivs` with shift
`axisShift PBCs period ndivs n`. -/
def axisVisits (PBCs : ℤ) (period : ℚ) (ndivs lo hi : ℤ) : List (ℤ × ℚ) :=
  (intRange lo hi).map (fun n => (axisWrap n ndivs, axisShift PBCs period ndivs n))

/-! Generic fold lemmas. -/

/-- A property preserved by every step of a fold holds of the fold. -/
theorem foldl_preserves {α β : Type} (f : α → β → α) (P : α → Prop)
    (l : List β) (hstep : ∀ a b, b ∈ l → P a → P (f a b)) :
    ∀ a, P a → P (l.foldl f a) := by
  induction l with
  | nil => exact fun a ha => ha
  | cons x xs ih =>
    intro a ha
    exact ih (fun a b hb hp => hstep a b (List.mem_cons_of_mem _ hb) hp) _
      (hstep a x (List.mem_cons_self _ _) ha)

/-- A relation preserved by corresponding steps of two folds over the
same list relates the two folds. -/
theorem foldl_rel {α₁ α₂ β : Type} (f₁ : α₁ → β → α₁) (f₂ : α₂ → β → α₂)
    (R : α₁ → α₂ → Prop) (l : List β)
    (hstep : ∀ a₁ a₂ b, b ∈ l → R a₁ a₂ → R (f₁ a₁ b) (f₂ a₂ b)) :
    ∀ a₁ a₂, R a₁ a₂ → R (l.foldl f₁ a₁) (l.foldl f₂ a₂) := by
  induction l with
  | nil => exact fun a₁ a₂ h => h
  | cons x xs ih =>
    intro a₁ a₂ h
    exact ih (fun a₁ a₂ b hb hr => hstep a₁ a₂ b (List.mem_cons_of_mem _ hb) hr)
      _ _ (hstep a₁ a₂ x (List.mem_cons_self _ _) h)

/-- A fold whose step commutes with a fixed additive shift of the
accumulator lets the shift be pulled out of the fold. -/
theorem foldl_add_shift {α β : Type} (f : α → β → α) (add : α → α → α)
    (l : List β) (hf : ∀ a b x, f (add a b) x = add a (f b x)) :
    ∀ a b, l.foldl f (add a b) = add a (l.foldl f b) := by
  induction l with
  | nil => exact fun a b => rfl
  | cons x xs ih =>
    intro a b
    rw [List.foldl_cons, List.foldl_cons, hf, ih]

/-! Additive structure facts for the accumulator. -/

theorem Mat3.add_assoc (A B C : Mat3) : (A.add B).add C = A.add (B.add C) := by
  simp only [Mat3.add]
  ext <;> ring

theorem Mat3.add_zero (A : Mat3) : A.add Mat3.zero = A := by
  simp only [Mat3.add, Mat3.zero]
  ext <;> ring

theorem accAdd_zero (a : Acc) : accAdd a accZero = a := by
  unfold accAdd accZero
  refine Prod.ext ?_ ?_ <;> funext k <;> simp [Mat3.add_zero]

/-- The inner pair body commutes with an additive shift of the
accumulator: each pair only ever adds terms that do not depend on the
accumulated value. -/
theorem pairStep_add (rsq x1tmp y1tmp z1tmp : ℚ) (a b : Mat3 × ℚ) (q : P2) :
    pairStep rsq x1tmp y1tmp z1tmp (msAdd a b) q =
      msAdd a (pairStep rsq x1tmp y1tmp z1tmp b q) := by
  simp only [pairStep, msAdd]
  split
  · refine Prod.ext ?_ ?_
    · simp only [Mat3.add]
      ext <;> ring
    · simp only
      ring
  · rfl

theorem pointInnerLoop_add (rsq x1tmp y1tmp z1tmp : ℚ) (pts2 : List P2)
    (a b : Mat3 × ℚ) :
    pointInnerLoop rsq x1tmp y1tmp z1tmp pts2 (msAdd a b) =
      msAdd a (pointInnerLoop rsq x1tmp y1tmp z1tmp pts2 b) :=
  foldl_add_shift _ msAdd pts2 (fun a b q => pairStep_add rsq x1tmp y1tmp z1tmp a b q) a b

theorem cellPairLoop_add (rsq sx sy sz : ℚ) (pts1 : List (ℕ × (ℚ × ℚ × ℚ)))
    (pts2 : List P2) (a b : Acc) :
    cellPairLoop rsq sx sy sz pts1 pts2 (accAdd a b) =
      accAdd a (cellPairLoop rsq sx sy sz pts1 pts2 b) := by
  unfold cellPairLoop
  apply foldl_add_shift _ accAdd pts1 ?_ a b
  intro u v gp
  dsimp only
  have hms : ((accAdd u v).1 gp.1, (accAdd u v).2 gp.1) =
      msAdd (u.1 gp.1, u.2 gp.1) (v.1 gp.1, v.2 gp.1) := rfl
  rw [hms, pointInnerLoop_add]
  refine Prod.ext ?_ ?_ <;> funext k <;> by_cases hk : k = gp.1 <;>
    simp [accAdd, msAdd, hk]

theorem zLoop_add (E : Env) (rsq : ℚ) (pts1 : List (ℕ × (ℚ × ℚ × ℚ)))
    (sx sy : ℚ) (ix2 iy2 lo hi : ℤ) (a b : Acc) :
    zLoop E rsq pts1 sx sy ix2 iy2 lo hi (accAdd a b) =
      accAdd a (zLoop E rsq pts1 sx sy ix2 iy2 lo hi b) := by
  unfold zLoop
  apply foldl_add_shift _ accAdd _ ?_ a b
  intro u v nz
  dsimp only
  split_ifs
  · exact cellPairLoop_add _ _ _ _ _ _ _ _
  · rfl

theorem yLoop_add (E : Env) (rsq : ℚ) (pts1 : List (ℕ × (ℚ × ℚ × ℚ)))
    (sx : ℚ) (ix2 ylo yhi zlo zhi : ℤ) (a b : Acc) :
    yLoop E rsq pts1 sx ix2 ylo yhi zlo zhi (accAdd a b) =
      accAdd a (yLoop E rsq pts1 sx ix2 ylo yhi zlo zhi b) := by
  unfold yLoop
  apply foldl_add_shift _ accAdd _ ?_ a b
  intro u v ny
  dsimp only
  exact zLoop_add _ _ _ _ _ _ _ _ _ _ _

theorem xLoop_add (E : Env) (rsq : ℚ) (pts1 : List (ℕ × (ℚ × ℚ × ℚ)))
    (xlo xhi ylo yhi zlo zhi : ℤ) (a b : Acc) :
    xLoop E rsq pts1 xlo xhi ylo yhi zlo zhi (accAdd a b) =
      accAdd a (xLoop E rsq pts1 xlo xhi ylo yhi zlo zhi b) := by
  unfold xLoop
  apply foldl_add_shift _ accAdd _ ?_ a b
  intro u v nx
  dsimp only
  exact yLoop_add _ _ _ _ _ _ _ _ _ _ _

theorem cellLoop_add (E : Env) (rsq : ℚ) (a b : Acc) (icell1 : ℤ) :
    cellLoop E rsq (accAdd a b) icell1 = accAdd a (cellLoop E rsq b icell1) := by
  unfold cellLoop
  dsimp only
  split_ifs
  · exact xLoop_add _ _ _ _ _ _ _ _ _ _ _
  · rfl

/-- Python `range(a, c)` splits at any `b` between the bounds. -/
theorem intRange_split (a b c : ℤ) (h1 : a ≤ b) (h2 : b ≤ c) :
    intRange a b ++ intRange b c = intRange a c := by
  unfold intRange
  have hab : (c - a).toNat = (b - a).toNat + (c - b).toNat := by omega
  rw [hab, List.range_add, List.map_append, List.map_map]
  congr 1
  apply List.map_congr_left
  intro k _
  simp only [Function.comp_apply]
  omega

/-- The main loop over a cell range splits additively at any midpoint:
each cell only adds contributions, independently of the accumulator. -/
theorem mainFold_split (E : Env) (rsq : ℚ) (first mid last : ℤ)
    (h1 : first ≤ mid) (h2 : mid ≤ last) :
    (intRange first last).foldl (cellLoop E rsq) accZero =
      accAdd ((intRange first mid).foldl (cellLoop E rsq) accZero)
        ((intRange mid last).foldl (cellLoop E rsq) accZero) := by
  rw [← intRange_split first mid last h1 h2, List.foldl_append]
  conv_lhs =>
    rw [← accAdd_zero ((intRange first mid).foldl (cellLoop E rsq) accZero)]
  exact foldl_add_shift _ accAdd _ (fun a b i => cellLoop_add E rsq a b i) _ _

/-- Zipping two maps over the same index list with a binary operation is
a single map. -/
theorem zipWith_map_same {α β : Type} (op : β → β → β) (f g : α → β)
    (l : List α) :
    List.zipWith op (l.map f) (l.map g) = l.map (fun s => op (f s) (g s)) := by
  induction l with
  | nil => rfl
  | cons x xs ih => simp [ih]

/-! Claim theorems. -/

/-- C3 counterexample: with a negative smoothing radius (-1) the engine
does not report any precondition-violation error; it runs the main loop
and computes a normal result, here counting the secondary point at
distance 0.5 and returning weight sum 1. -/
theorem c3_counterexample :
    (inertia_tensor_per_object_engine dmC3 [0] [0] [0] [0.5] [0] [0] [1]
      (-1) (0, 1)).2 = [1] := by
  with_unfolding_all decide

/-- C3 (amended): the engine performs no negative-radius check; the
radius is squared before the main loop (source line 49), so the result
for radius `-r` is identical to the result for radius `r`. -/
theorem c3_negative_radius_behaves_as_absolute (dm : DoubleMesh)
    (x1in y1in z1in x2in y2in z2in weights2in : List ℚ)
    (rsmooth : ℚ) (cell1_tuple : ℤ × ℤ) :
    inertia_tensor_per_object_engine dm x1in y1in z1in x2in y2in z2in
        weights2in (-rsmooth) cell1_tuple =
      inertia_tensor_per_object_engine dm x1in y1in z1in x2in y2in z2in
        weights2in rsmooth cell1_tuple := by
  simp only [inertia_tensor_per_object_engine, neg_mul_neg]

/-- C4: a pair whose squared separation equals the squared smoothing
radius exactly is excluded - the distance test of source line 207 is
strict, so the pair body leaves both the tensor and the weight sum
unchanged. -/
theorem c4_exact_radius_pair_excluded (rsq x1tmp y1tmp z1tmp : ℚ)
    (acc : Mat3 × ℚ) (q : P2)
    (h : (x1tmp - q.x) * (x1tmp - q.x) + (y1tmp - q.y) * (y1tmp - q.y) +
      (z1tmp - q.z) * (z1tmp - q.z) = rsq) :
    pairStep rsq x1tmp y1tmp z1tmp acc q = acc := by
  simp only [pairStep]
  rw [h]
  exact if_neg (lt_irrefl rsq)

/-- C4 witness: a secondary point at distance exactly 1 from the primary
point with radius 1 contributes nothing. -/
theorem c4_exact_radius_pair_excluded_witness :
    pairStep 1 1 0 0 (Mat3.zero, 0) ⟨0, 0, 0, 1⟩ = (Mat3.zero, 0) :=
  c4_exact_radius_pair_excluded 1 1 0 0 (Mat3.zero, 0) ⟨0, 0, 0, 1⟩ (by norm_num)

/-- C5: the periodic wrap scenario - period 10 along x, primary point at
x = 0.5, secondary point at x = 9.6 with weight 1, smoothing radius 1,
PBC enabled. The engine uses the wrapped separation 0.9 (the xx entry is
0.81 = 0.9 squared, not 9.1 squared) and the weight sum is 1. -/
theorem c5_periodic_wrap_scenario :
    inertia_tensor_per_object_engine dmC5 [0.5] [5] [5] [9.6] [5] [5] [1]
        1 (0, 5) =
      ([⟨81/100, 0, 0, 0, 0, 0, 0, 0, 0⟩], [1]) := by
  with_unfolding_all decide

/-- C7: splitting the full primary-cell range `[0, total)` at any `mid`
into `[0, mid)` and `[mid, total)`, running the engine on each sub-range
and summing the two tensor arrays and the two weight-sum arrays
element-wise gives exactly the single full-range run. -/
theorem c7_range_partition_additivity (dm : DoubleMesh)
    (x1in y1in z1in x2in y2in z2in weights2in : List ℚ)
    (rsmooth : ℚ) (mid total : ℤ) (h1 : 0 ≤ mid) (h2 : mid ≤ total) :
    List.zipWith Mat3.add
        (inertia_tensor_per_object_engine dm x1in y1in z1in x2in y2in z2in
          weights2in rsmooth (0, mid)).1
        (inertia_tensor_per_object_engine dm x1in y1in z1in x2in y2in z2in
          weights2in rsmooth (mid, total)).1 =
      (inertia_tensor_per_object_engine dm x1in y1in z1in x2in y2in z2in
        weights2in rsmooth (0, total)).1 ∧
    List.zipWith (fun u v : ℚ => u + v)
        (inertia_tensor_per_object_engine dm x1in y1in z1in x2in y2in z2in
          weights2in rsmooth (0, mid)).2
        (inertia_tensor_per_object_engine dm x1in y1in z1in x2in y2in z2in
          weights2in rsmooth (mid, total)).2 =
      (inertia_tensor_per_object_engine dm x1in y1in z1in x2in y2in z2in
        weights2in rsmooth (0, total)).2 := by
  simp only [inertia_tensor_per_object_engine]
  rw [mainFold_split (mkEnv dm x1in y1in z1in x2in y2in z2in weights2in)
    (rsmooth * rsmooth) 0 mid total h1 h2]
  constructor <;> rw [zipWith_map_same] <;> rfl

/-- C7 witness: the split of the one-cell range `[0, 1)` at 0. -/
theorem c7_range_partition_additivity_witness :
    List.zipWith Mat3.add
        (inertia_tensor_per_object_engine dmOneP [0] [0] [0] [1.5] [0] [0]
          [1] 2 (0, 0)).1
        (inertia_tensor_per_object_engine dmOneP [0] [0] [0] [1.5] [0] [0]
          [1] 2 (0, 1)).1 =
      (inertia_tensor_per_object_engine dmOneP [0] [0] [0] [1.5] [0] [0]
        [1] 2 (0, 1)).1 ∧
    List.zipWith (fun u v : ℚ => u + v)
        (inertia_tensor_per_object_engine dmOneP [0] [0] [0] [1.5] [0] [0]
          [1] 2 (0, 0)).2
        (inertia_tensor_per_object_engine dmOneP [0] [0] [0] [1.5] [0] [0]
          [1] 2 (0, 1)).2 =
      (inertia_tensor_per_object_engine dmOneP [0] [0] [0] [1.5] [0] [0]
        [1] 2 (0, 1)).2 :=
  c7_range_partition_additivity dmOneP [0] [0] [0] [1.5] [0] [0] [1] 2 0 1
    (by decide) (by decide)

/-- C9: a secondary point at exactly the (shifted) position of the
primary point, with a positive smoothing radius, adds its weight to the
weight sum while changing no entry of the tensor; no special
self-exclusion exists in the pair body. -/
theorem c9_zero_separation_adds_weight_only (rsmooth x1tmp y1tmp z1tmp : ℚ)
    (M : Mat3) (s : ℚ) (q : P2)
    (hx : q.x = x1tmp) (hy : q.y = y1tmp) (hz : q.z = z1tmp)
    (hr : 0 < rsmooth) :
    pairStep (rsmooth * rsmooth) x1tmp y1tmp z1tmp (M, s) q = (M, s + q.w) := by
  subst hx hy hz
  simp [pairStep, sub_self, mul_pos hr hr]

/-- C9 witness: an aliased pair at (2, 3, 4) with weight 5 and radius 1
adds exactly 5 to the weight sum and nothing to the tensor. -/
theorem c9_zero_separation_adds_weight_only_witness :
    pairStep (1 * 1) 2 3 4 (Mat3.zero, 0) ⟨2, 3, 4, 5⟩ = (Mat3.zero, 0 + 5) :=
  c9_zero_separation_adds_weight_only 1 2 3 4 Mat3.zero 0 ⟨2, 3, 4, 5⟩
    rfl rfl rfl (by norm_num)

theorem pairStep_symm (rsq x1tmp y1tmp z1tmp : ℚ) (ms : Mat3 × ℚ) (q : P2)
    (h : SymmM ms.1) : SymmM (pairStep rsq x1tmp y1tmp z1tmp ms q).1 := by
  unfold SymmM at h ⊢
  simp only [pairStep]
  split
  · exact ⟨by rw [h.1], by rw [h.2.1], by rw [h.2.2]⟩
  · exact h

theorem pointInnerLoop_symm (rsq x1tmp y1tmp z1tmp : ℚ) (pts2 : List P2)
    (ms : Mat3 × ℚ) (h : SymmM ms.1) :
    SymmM (pointInnerLoop rsq x1tmp y1tmp z1tmp pts2 ms).1 :=
  foldl_preserves _ (fun a => SymmM a.1) pts2
    (fun a q _ ha => pairStep_symm rsq x1tmp y1tmp z1tmp a q ha) ms h

theorem cellPairLoop_symm (rsq sx sy sz : ℚ) (pts1 : List (ℕ × (ℚ × ℚ × ℚ)))
    (pts2 : List P2) (acc : Acc) (h : ∀ k, SymmM (acc.1 k)) :
    ∀ k, SymmM ((cellPairLoop rsq sx sy sz pts1 pts2 acc).1 k) := by
  unfold cellPairLoop
  apply foldl_preserves _ (fun a : Acc => ∀ k, SymmM (a.1 k)) pts1 ?_ acc h
  intro a gp _ ha k
  dsimp only
  by_cases hk : k = gp.1
  · simp only [if_pos hk]
    exact pointInnerLoop_symm _ _ _ _ _ _ (ha gp.1)
  · simp only [if_neg hk]
    exact ha k

theorem zLoop_symm (E : Env) (rsq : ℚ) (pts1 : List (ℕ × (ℚ × ℚ × ℚ)))
    (sx sy : ℚ) (ix2 iy2 lo hi : ℤ) (acc : Acc) (h : ∀ k, SymmM (acc.1 k)) :
    ∀ k, SymmM ((zLoop E rsq pts1 sx sy ix2 iy2 lo hi acc).1 k) := by
  unfold zLoop
  apply foldl_preserves _ (fun a : Acc => ∀ k, SymmM (a.1 k)) _ ?_ acc h
  intro a nz _ ha
  dsimp only
  split_ifs
  · exact cellPairLoop_symm _ _ _ _ _ _ _ ha
  · exact ha

theorem yLoop_symm (E : Env) (rsq : ℚ) (pts1 : List (ℕ × (ℚ × ℚ × ℚ)))
    (sx : ℚ) (ix2 ylo yhi zlo zhi : ℤ) (acc : Acc) (h : ∀ k, SymmM (acc.1 k)) :
    ∀ k, SymmM ((yLoop E rsq pts1 sx ix2 ylo yhi zlo zhi acc).1 k) := by
  unfold yLoop
  apply foldl_preserves _ (fun a : Acc => ∀ k, SymmM (a.1 k)) _ ?_ acc h
  intro a ny _ ha
  dsimp only
  exact zLoop_symm _ _ _ _ _ _ _ _ _ _ ha

theorem xLoop_symm (E : Env) (rsq : ℚ) (pts1 : List (ℕ × (ℚ × ℚ × ℚ)))
    (xlo xhi ylo yhi zlo zhi : ℤ) (acc : Acc) (h : ∀ k, SymmM (acc.1 k)) :
    ∀ k, SymmM ((xLoop E rsq pts1 xlo xhi ylo yhi zlo zhi acc).1 k) := by
  unfold xLoop
  apply foldl_preserves _ (fun a : Acc => ∀ k, SymmM (a.1 k)) _ ?_ acc h
  intro a nx _ ha
  dsimp only
  exact yLoop_symm _ _ _ _ _ _ _ _ _ _ ha

theorem cellLoop_symm (E : Env) (rsq : ℚ) (acc : Acc) (icell1 : ℤ)
    (h : ∀ k, SymmM (acc.1 k)) :
    ∀ k, SymmM ((cellLoop E rsq acc icell1).1 k) := by
  unfold cellLoop
  dsimp only
  split_ifs
  · exact xLoop_symm _ _ _ _ _ _ _ _ _ _ h
  · exact h

theorem mainFold_symm (E : Env) (rsq : ℚ) (first last : ℤ) :
    ∀ k, SymmM (((intRange first last).foldl (cellLoop E rsq) accZero).1 k) :=
  foldl_preserves _ (fun a : Acc => ∀ k, SymmM (a.1 k)) _
    (fun a i _ ha => cellLoop_symm E rsq a i ha) accZero
    (fun _ => ⟨rfl, rfl, rfl⟩)

/-- C6: every 3x3 tensor in the engine's output array is symmetric -
the off-diagonal entries `[0][1]/[1][0]`, `[0][2]/[2][0]` and
`[1][2]/[2][1]` agree, because each weighted product is always written
into both mirror slots. -/
theorem c6_output_tensor_symmetric (dm : DoubleMesh)
    (x1in y1in z1in x2in y2in z2in weights2in : List ℚ)
    (rsmooth : ℚ) (cell1_tuple : ℤ × ℤ) :
    ∀ M ∈ (inertia_tensor_per_object_engine dm x1in y1in z1in x2in y2in z2in
      weights2in rsmooth cell1_tuple).1,
      M.m01 = M.m10 ∧ M.m02 = M.m20 ∧ M.m12 = M.m21 := by
  intro M hM
  simp only [inertia_tensor_per_object_engine] at hM
  obtain ⟨s, _, rfl⟩ := List.mem_map.1 hM
  exact mainFold_symm (mkEnv dm x1in y1in z1in x2in y2in z2in weights2in)
    (rsmooth * rsmooth) cell1_tuple.1 cell1_tuple.2 s

/-- C6 witness: the single output tensor of a concrete run (primary at
the origin, secondary at distance 1.5 with weight 1, radius 2) is
symmetric. -/
theorem c6_output_tensor_symmetric_witness :
    (⟨9/4, 0, 0, 0, 0, 0, 0, 0, 0⟩ : Mat3).m01 = (⟨9/4, 0, 0, 0, 0, 0, 0, 0, 0⟩ : Mat3).m10 ∧
    (⟨9/4, 0, 0, 0, 0, 0, 0, 0, 0⟩ : Mat3).m02 = (⟨9/4, 0, 0, 0, 0, 0, 0, 0, 0⟩ : Mat3).m20 ∧
    (⟨9/4, 0, 0, 0, 0, 0, 0, 0, 0⟩ : Mat3).m12 = (⟨9/4, 0, 0, 0, 0, 0, 0, 0, 0⟩ : Mat3).m21 :=
  c6_output_tensor_symmetric dmOneP [0] [0] [0] [1.5] [0] [0] [1] 2 (0, 1)
    ⟨9/4, 0, 0, 0, 0, 0, 0, 0, 0⟩ (by with_unfolding_all decide)

theorem pairStep_mono (rsq1 rsq2 x1tmp y1tmp z1tmp : ℚ) (hr : rsq1 ≤ rsq2)
    (q : P2) (hw : 0 ≤ q.w) (ms1 ms2 : Mat3 × ℚ) (h : ms1.2 ≤ ms2.2) :
    (pairStep rsq1 x1tmp y1tmp z1tmp ms1 q).2 ≤
      (pairStep rsq2 x1tmp y1tmp z1tmp ms2 q).2 := by
  simp only [pairStep]
  by_cases h1 : (x1tmp - q.x) * (x1tmp - q.x) + (y1tmp - q.y) * (y1tmp - q.y) +
      (z1tmp - q.z) * (z1tmp - q.z) < rsq1
  · rw [if_pos h1, if_pos (lt_of_lt_of_le h1 hr)]
    exact add_le_add h le_rfl
  · rw [if_neg h1]
    by_cases h2 : (x1tmp - q.x) * (x1tmp - q.x) + (y1tmp - q.y) * (y1tmp - q.y) +
        (z1tmp - q.z) * (z1tmp - q.z) < rsq2
    · rw [if_pos h2]
      exact le_trans h (le_add_of_nonneg_right hw)
    · rw [if_neg h2]
      exact h

theorem pointInnerLoop_mono (rsq1 rsq2 x1tmp y1tmp z1tmp : ℚ) (hr : rsq1 ≤ rsq2)
    (pts2 : List P2) (hw : ∀ q ∈ pts2, 0 ≤ q.w) (ms1 ms2 : Mat3 × ℚ)
    (h : ms1.2 ≤ ms2.2) :
    (pointInnerLoop rsq1 x1tmp y1tmp z1tmp pts2 ms1).2 ≤
      (pointInnerLoop rsq2 x1tmp y1tmp z1tmp pts2 ms2).2 :=
  foldl_rel _ _ (fun a1 a2 : Mat3 × ℚ => a1.2 ≤ a2.2) pts2
    (fun a1 a2 q hq ha =>
      pairStep_mono rsq1 rsq2 x1tmp y1tmp z1tmp hr q (hw q hq) a1 a2 ha)
    ms1 ms2 h

/-- Every element of a slice is an element of the underlying list. -/
theorem mem_of_mem_listSlice {α : Type} {q : α} {l : List α} {a b : ℤ}
    (h : q ∈ listSlice l a b) : q ∈ l :=
  List.mem_of_mem_drop (List.mem_of_mem_take h)

theorem cellPairLoop_mono (rsq1 rsq2 sx sy sz : ℚ) (hr : rsq1 ≤ rsq2)
    (pts1 : List (ℕ × (ℚ × ℚ × ℚ))) (pts2 : List P2)
    (hw : ∀ q ∈ pts2, 0 ≤ q.w) (acc1 acc2 : Acc)
    (h : ∀ k, acc1.2 k ≤ acc2.2 k) :
    ∀ k, (cellPairLoop rsq1 sx sy sz pts1 pts2 acc1).2 k ≤
      (cellPairLoop rsq2 sx sy sz pts1 pts2 acc2).2 k := by
  unfold cellPairLoop
  apply foldl_rel _ _ (fun a1 a2 : Acc => ∀ k, a1.2 k ≤ a2.2 k) pts1 ?_ acc1 acc2 h
  intro a1 a2 gp _ ha k
  dsimp only
  by_cases hk : k = gp.1
  · simp only [if_pos hk]
    exact pointInnerLoop_mono rsq1 rsq2 _ _ _ hr pts2 hw _ _ (ha gp.1)
  · simp only [if_neg hk]
    exact ha k

theorem zLoop_mono (E : Env) (rsq1 rsq2 : ℚ) (hr : rsq1 ≤ rsq2)
    (hw : ∀ q ∈ E.pts2all, 0 ≤ q.w) (pts1 : List (ℕ × (ℚ × ℚ × ℚ)))
    (sx sy : ℚ) (ix2 iy2 lo hi : ℤ) (acc1 acc2 : Acc)
    (h : ∀ k, acc1.2 k ≤ acc2.2 k) :
    ∀ k, (zLoop E rsq1 pts1 sx sy ix2 iy2 lo hi acc1).2 k ≤
      (zLoop E rsq2 pts1 sx sy ix2 iy2 lo hi acc2).2 k := by
  unfold zLoop
  apply foldl_rel _ _ (fun a1 a2 : Acc => ∀ k, a1.2 k ≤ a2.2 k) _ ?_ acc1 acc2 h
  intro a1 a2 nz _ ha
  dsimp only
  split_ifs
  · exact cellPairLoop_mono rsq1 rsq2 _ _ _ hr pts1 _
      (fun q hq => hw q (mem_of_mem_listSlice hq)) a1 a2 ha
  · exact ha

theorem yLoop_mono (E : Env) (rsq1 rsq2 : ℚ) (hr : rsq1 ≤ rsq2)
    (hw : ∀ q ∈ E.pts2all, 0 ≤ q.w) (pts1 : List (ℕ × (ℚ × ℚ × ℚ)))
    (sx : ℚ) (ix2 ylo yhi zlo zhi : ℤ) (acc1 acc2 : Acc)
    (h : ∀ k, acc1.2 k ≤ acc2.2 k) :
    ∀ k, (yLoop E rsq1 pts1 sx ix2 ylo yhi zlo zhi acc1).2 k ≤
      (yLoop E rsq2 pts1 sx ix2 ylo yhi zlo zhi acc2).2 k := by
  unfold yLoop
  apply foldl_rel _ _ (fun a1 a2 : Acc => ∀ k, a1.2 k ≤ a2.2 k) _ ?_ acc1 acc2 h
  intro a1 a2 ny _ ha
  dsimp only
  exact zLoop_mono E rsq1 rsq2 hr hw pts1 _ _ _ _ _ _ a1 a2 ha

theorem xLoop_mono (E : Env) (rsq1 rsq2 : ℚ) (hr : rsq1 ≤ rsq2)
    (hw : ∀ q ∈ E.pts2all, 0 ≤ q.w) (pts1 : List (ℕ × (ℚ × ℚ × ℚ)))
    (xlo xhi ylo yhi zlo zhi : ℤ) (acc1 acc2 : Acc)
    (h : ∀ k, acc1.2 k ≤ acc2.2 k) :
    ∀ k, (xLoop E rsq1 pts1 xlo xhi ylo yhi zlo zhi acc1).2 k ≤
      (xLoop E rsq2 pts1 xlo xhi ylo yhi zlo zhi acc2).2 k := by
  unfold xLoop
  apply foldl_rel _ _ (fun a1 a2 : Acc => ∀ k, a1.2 k ≤ a2.2 k) _ ?_ acc1 acc2 h
  intro a1 a2 nx _ ha
  dsimp only
  exact yLoop_mono E rsq1 rsq2 hr hw pts1 _ _ _ _ _ _ a1 a2 ha

theorem cellLoop_mono (E : Env) (rsq1 rsq2 : ℚ) (hr : rsq1 ≤ rsq2)
    (hw : ∀ q ∈ E.pts2all, 0 ≤ q.w) (acc1 acc2 : Acc) (icell1 : ℤ)
    (h : ∀ k, acc1.2 k ≤ acc2.2 k) :
    ∀ k, (cellLoop E rsq1 acc1 icell1).2 k ≤ (cellLoop E rsq2 acc2 icell1).2 k := by
  unfold cellLoop
  dsimp only
  split_ifs
  · exact xLoop_mono E rsq1 rsq2 hr hw _ _ _ _ _ _ _ acc1 acc2 h
  · exact h

theorem mainFold_mono (E : Env) (rsq1 rsq2 : ℚ) (hr : rsq1 ≤ rsq2)
    (hw : ∀ q ∈ E.pts2all, 0 ≤ q.w) (first last : ℤ) :
    ∀ k, ((intRange first last).foldl (cellLoop E rsq1) accZero).2 k ≤
      ((intRange first last).foldl (cellLoop E rsq2) accZero).2 k :=
  foldl_rel _ _ (fun a1 a2 : Acc => ∀ k, a1.2 k ≤ a2.2 k) _
    (fun a1 a2 i _ ha => cellLoop_mono E rsq1 rsq2 hr hw a1 a2 i ha)
    accZero accZero (fun _ => le_rfl)

theorem getD_map_le (l : List ℕ) (f g : ℕ → ℚ) (h : ∀ s, f s ≤ g s) (k : ℕ) :
    (l.map f).getD k 0 ≤ (l.map g).getD k 0 := by
  induction l generalizing k with
  | nil => simp
  | cons x xs ih =>
    cases k with
    | zero => simpa using h x
    | succ n => simpa using ih n

theorem getD_nonneg_of_forall (l : List ℚ) (h : ∀ w ∈ l, 0 ≤ w) (k : ℕ) :
    0 ≤ l.getD k 0 := by
  induction l generalizing k with
  | nil => simp
  | cons x xs ih =>
    cases k with
    | zero => simpa using h x (List.mem_cons_self _ _)
    | succ n => simpa using ih (fun w hw => h w (List.mem_cons_of_mem _ hw)) n

/-- C8 counterexample: with the claim's hypotheses as stated (r1 ≤ r2,
all secondary weights non-negative) but a negative r1 = -2 ≤ r2 = 1, the
weight sum for r1 exceeds the weight sum for r2, because the engine
squares the radius: a secondary point at distance 1.5 is counted for
radius -2 and not for radius 1. -/
theorem c8_counterexample :
    ¬ ((inertia_tensor_per_object_engine dmOneP [0] [0] [0] [1.5] [0] [0]
        [1] (-2) (0, 1)).2.getD 0 0 ≤
      (inertia_tensor_per_object_engine dmOneP [0] [0] [0] [1.5] [0] [0]
        [1] 1 (0, 1)).2.getD 0 0) := by
  with_unfolding_all decide

/-- C8 (amended): for non-negative radii r1 ≤ r2, with all secondary
weights non-negative, every primary point's accumulated weight sum under
r1 is at most its weight sum under r2. -/
theorem c8_weight_sum_monotone_in_radius (dm : DoubleMesh)
    (x1in y1in z1in x2in y2in z2in weights2in : List ℚ)
    (r1 r2 : ℚ) (cell1_tuple : ℤ × ℤ) (h0 : 0 ≤ r1) (h12 : r1 ≤ r2)
    (hw : ∀ w ∈ weights2in, 0 ≤ w) (k : ℕ) :
    (inertia_tensor_per_object_engine dm x1in y1in z1in x2in y2in z2in
      weights2in r1 cell1_tuple).2.getD k 0 ≤
    (inertia_tensor_per_object_engine dm x1in y1in z1in x2in y2in z2in
      weights2in r2 cell1_tuple).2.getD k 0 := by
  simp only [inertia_tensor_per_object_engine]
  apply getD_map_le
  apply mainFold_mono
  · exact mul_self_le_mul_self h0 h12
  · intro q hq
    simp only [mkEnv] at hq
    obtain ⟨j, _, rfl⟩ := List.mem_map.1 hq
    exact getD_nonneg_of_forall weights2in hw j

/-- C8 witness: radii 1 ≤ 2 on the concrete one-cell configuration. -/
theorem c8_weight_sum_monotone_in_radius_witness :
    (inertia_tensor_per_object_engine dmOneP [0] [0] [0] [1.5] [0] [0]
      [1] 1 (0, 1)).2.getD 0 0 ≤
    (inertia_tensor_per_object_engine dmOneP [0] [0] [0] [1.5] [0] [0]
      [1] 2 (0, 1)).2.getD 0 0 :=
  c8_weight_sum_monotone_in_radius dmOneP [0] [0] [0] [1.5] [0] [0] [1]
    1 2 (0, 1) (by norm_num) (by norm_num) (by norm_num) 0

theorem intRange_nodup (a b : ℤ) : (intRange a b).Nodup := by
  unfold intRange
  apply List.Nodup.map ?_ (List.nodup_range _)
  intro x y hxy
  have hxy2 : a + (x : ℤ) = a + (y : ℤ) := hxy
  omega

theorem mem_intRange_iff {x a b : ℤ} : x ∈ intRange a b ↔ a ≤ x ∧ x < b := by
  unfold intRange
  simp only [List.mem_map, List.mem_range]
  constructor
  · rintro ⟨k, hk, rfl⟩
    omega
  · intro hx
    exact ⟨(x - a).toNat, by omega, by omega⟩

/-- C1 counterexample: non-periodic box, 2-cell x axis, a primary point
at x = 1.95 in cell 0 and a secondary point at x = 2.05 in cell 1,
radius 1. The covering window `[-1, 2)` extends below the grid; the
engine wraps index -1 onto cell 1 with zero shift instead of skipping
it, reaching the secondary point a second time: the weight sum is 2,
whereas the skipping engine the claim describes returns 1. -/
theorem c1_counterexample :
    (inertia_tensor_per_object_engine dmC1 [1.95] [2] [2] [2.05] [2] [2]
      [1] 1 (0, 2)).2 = [2] ∧
    (spec_skip_engine dmC1 [1.95] [2] [2] [2.05] [2] [2]
      [1] 1 (0, 2)).2 = [1] := by
  constructor <;> with_unfolding_all decide

/-- C1 (amended): when periodicity is disabled the engine does not skip
an out-of-range window index: the coordinate shift is zero on every
branch, and the index is wrapped modulo the grid extent onto a valid
cell, which is then processed at unshifted coordinates. Points near the
opposite face therefore contribute exactly when their unwrapped
separation is within the radius, and a wrapped index can revisit a cell
already covered by the window, double-counting its pairs. -/
theorem c1_nonperiodic_wrap_zero_shift (period : ℚ) (ndivs n : ℤ)
    (h : 0 < ndivs) :
    axisShift 0 period ndivs n = 0 ∧
    0 ≤ axisWrap n ndivs ∧ axisWrap n ndivs < ndivs := by
  refine ⟨?_, Int.emod_nonneg n (by omega), Int.emod_lt_of_pos n h⟩
  unfold axisShift
  split_ifs <;> simp

/-- C1 witness: the out-of-range index -1 on a non-periodic 2-cell axis
gets shift 0 and wraps onto the valid cell 1. -/
theorem c1_nonperiodic_wrap_zero_shift_witness :
    axisShift 0 4 2 (-1) = 0 ∧ 0 ≤ axisWrap (-1) 2 ∧ axisWrap (-1) 2 < 2 :=
  c1_nonperiodic_wrap_zero_shift 4 2 (-1) (by decide)

/-- C2 counterexample: periodic box of period 10, both grids a single
cell, search length 11 giving covering window `[-2, 3)` - wider than the
one-cell axis. The primary point at x = 0.5 and the secondary at x = 9.6
with weight 1 and radius 1 have exactly one periodic image within the
radius (wrapped separation 0.9), so an exactly-once count gives weight
sum 1; the engine visits cell 0 with shift -10 twice (window indices -2
and -1) and returns 2. -/
theorem c2_counterexample :
    (inertia_tensor_per_object_engine dmC2 [0.5] [5] [5] [9.6] [5] [5]
      [1] 1 (0, 1)).2 = [2] ∧
    specWeightSum 1 10 10 10 1 (0.5, 5, 5) [⟨9.6, 5, 5, 1⟩] = 1 := by
  constructor <;> with_unfolding_all decide

/-- C2 (amended): a pair within radius contributes once per occurrence
of its (wrapped cell, shift) pair in the covering window, and those
occurrences are pairwise distinct - so no pair is double counted -
provided the window extends at most one grid extent beyond each boundary
on a periodic axis with nonzero period, or has width at most the grid
extent on a non-periodic axis. When the covering window spans more cells
than that (as in the counterexample), the same (cell, shift) pair occurs
twice and the pair is counted once per occurrence. -/
theorem c2_window_visits_distinct (PBCs : ℤ) (period : ℚ) (ndivs lo hi : ℤ)
    (_hd : 0 < ndivs) (hp : period ≠ 0)
    (h : (PBCs = 1 ∧ -ndivs ≤ lo ∧ hi ≤ 2 * ndivs) ∨
      (PBCs = 0 ∧ hi - lo ≤ ndivs)) :
    (axisVisits PBCs period ndivs lo hi).Nodup := by
  unfold axisVisits
  apply List.Nodup.map_on ?_ (intRange_nodup lo hi)
  intro x hx y hy hxy
  rw [mem_intRange_iff] at hx hy
  have h1 : axisWrap x ndivs = axisWrap y ndivs := congrArg Prod.fst hxy
  have h2 : axisShift PBCs period ndivs x = axisShift PBCs period ndivs y :=
    congrArg Prod.snd hxy
  unfold axisWrap at h1
  have key : ∀ u v : ℤ, Int.emod u ndivs = Int.emod v ndivs →
      -ndivs < u - v → u - v < ndivs → u = v := by
    intro u v he hl hr
    have hdvd : ndivs ∣ u - v :=
      Int.dvd_of_emod_eq_zero (Int.emod_eq_emod_iff_emod_sub_eq_zero.mp he)
    have := Int.eq_zero_of_abs_lt_dvd hdvd (abs_lt.mpr ⟨hl, hr⟩)
    omega
  rcases h with ⟨hP, hlo, hhi⟩ | ⟨hP, hwidth⟩
  · subst hP
    have hshift : ∀ n : ℤ, axisShift 1 period ndivs n =
        if n < 0 then -period else if ndivs ≤ n then period else 0 := by
      intro n
      unfold axisShift
      norm_num
    rw [hshift, hshift] at h2
    split_ifs at h2 <;>
      first
        | exact key x y h1 (by omega) (by omega)
        | (exfalso; apply hp; linarith)
  · subst hP
    exact key x y h1 (by omega) (by omega)

/-- C2 witness: a one-cell periodic axis with the window `[0, 1)` has
pairwise distinct visits. -/
theorem c2_window_visits_distinct_witness :
    (axisVisits 1 10 1 0 1).Nodup :=
  c2_window_visits_distinct 1 10 1 0 1 (by decide) (by norm_num)
    (Or.inl ⟨rfl, by decide, by decide⟩)

theorem hPairStep_pres (tid sid g : ℕ) (rsq x1tmp y1tmp z1tmp : ℚ)
    (q : P2) (j : ℕ) (h1 : j ≠ tid) (h2 : j ≠ sid) (hh : NpHeap) :
    (hPairStep tid sid g rsq x1tmp y1tmp z1tmp hh q).store j = hh.store j ∧
    (hPairStep tid sid g rsq x1tmp y1tmp z1tmp hh q).next = hh.next := by
  unfold hPairStep
  dsimp only
  split_ifs
  · constructor
    · simp [NpHeap.writeAt, h1, h2]
    · simp [NpHeap.writeAt]
  · exact ⟨rfl, rfl⟩

theorem hCellPairLoop_pres (tid sid : ℕ) (rsq sx sy sz : ℚ)
    (pts1 : List (ℕ × (ℚ × ℚ × ℚ))) (pts2 : List P2) (j : ℕ)
    (h1 : j ≠ tid) (h2 : j ≠ sid) (hh : NpHeap) :
    (hCellPairLoop tid sid rsq sx sy sz pts1 pts2 hh).store j = hh.store j ∧
    (hCellPairLoop tid sid rsq sx sy sz pts1 pts2 hh).next = hh.next := by
  unfold hCellPairLoop
  apply foldl_preserves _
    (fun a : NpHeap => a.store j = hh.store j ∧ a.next = hh.next) pts1 ?_ hh
    ⟨rfl, rfl⟩
  intro a gp _ ha
  dsimp only
  apply foldl_preserves _
    (fun c : NpHeap => c.store j = hh.store j ∧ c.next = hh.next) pts2 ?_ a ha
  intro c q _ hc
  have hp := hPairStep_pres tid sid gp.1 rsq (gp.2.1 - sx) (gp.2.2.1 - sy)
    (gp.2.2.2 - sz) q j h1 h2 c
  exact ⟨hp.1.trans hc.1, hp.2.trans hc.2⟩

theorem hzLoop_pres (E : Env) (tid sid : ℕ) (rsq : ℚ)
    (pts1 : List (ℕ × (ℚ × ℚ × ℚ))) (sx sy : ℚ) (ix2 iy2 lo hi : ℤ)
    (j : ℕ) (h1 : j ≠ tid) (h2 : j ≠ sid) (hh : NpHeap) :
    (hzLoop E tid sid rsq pts1 sx sy ix2 iy2 lo hi hh).store j = hh.store j ∧
    (hzLoop E tid sid rsq pts1 sx sy ix2 iy2 lo hi hh).next = hh.next := by
  unfold hzLoop
  apply foldl_preserves _
    (fun a : NpHeap => a.store j = hh.store j ∧ a.next = hh.next) _ ?_ hh
    ⟨rfl, rfl⟩
  intro a nz _ ha
  dsimp only
  split_ifs
  · refine ⟨Eq.trans ?_ ha.1, Eq.trans ?_ ha.2⟩
    · exact (hCellPairLoop_pres _ _ _ _ _ _ _ _ j h1 h2 a).1
    · exact (hCellPairLoop_pres _ _ _ _ _ _ _ _ j h1 h2 a).2
  · exact ha

theorem hyLoop_pres (E : Env) (tid sid : ℕ) (rsq : ℚ)
    (pts1 : List (ℕ × (ℚ × ℚ × ℚ))) (sx : ℚ) (ix2 ylo yhi zlo zhi : ℤ)
    (j : ℕ) (h1 : j ≠ tid) (h2 : j ≠ sid) (hh : NpHeap) :
    (hyLoop E tid sid rsq pts1 sx ix2 ylo yhi zlo zhi hh).store j = hh.store j ∧
    (hyLoop E tid sid rsq pts1 sx ix2 ylo yhi zlo zhi hh).next = hh.next := by
  unfold hyLoop
  apply foldl_preserves _
    (fun a : NpHeap => a.store j = hh.store j ∧ a.next = hh.next) _ ?_ hh
    ⟨rfl, rfl⟩
  intro a ny _ ha
  dsimp only
  refine ⟨Eq.trans ?_ ha.1, Eq.trans ?_ ha.2⟩
  · exact (hzLoop_pres E tid sid rsq pts1 _ _ _ _ _ _ j h1 h2 a).1
  · exact (hzLoop_pres E tid sid rsq pts1 _ _ _ _ _ _ j h1 h2 a).2

theorem hxLoop_pres (E : Env) (tid sid : ℕ) (rsq : ℚ)
    (pts1 : List (ℕ × (ℚ × ℚ × ℚ))) (xlo xhi ylo yhi zlo zhi : ℤ)
    (j : ℕ) (h1 : j ≠ tid) (h2 : j ≠ sid) (hh : NpHeap) :
    (hxLoop E tid sid rsq pts1 xlo xhi ylo yhi zlo zhi hh).store j = hh.store j ∧
    (hxLoop E tid sid rsq pts1 xlo xhi ylo yhi zlo zhi hh).next = hh.next := by
  unfold hxLoop
  apply foldl_preserves _
    (fun a : NpHeap => a.store j = hh.store j ∧ a.next = hh.next) _ ?_ hh
    ⟨rfl, rfl⟩
  intro a nx _ ha
  dsimp only
  refine ⟨Eq.trans ?_ ha.1, Eq.trans ?_ ha.2⟩
  · exact (hyLoop_pres E tid sid rsq pts1 _ _ _ _ _ _ j h1 h2 a).1
  · exact (hyLoop_pres E tid sid rsq pts1 _ _ _ _ _ _ j h1 h2 a).2

theorem hCellLoop_pres (E : Env) (tid sid : ℕ) (rsq : ℚ) (icell1 : ℤ)
    (j : ℕ) (h1 : j ≠ tid) (h2 : j ≠ sid) (hh : NpHeap) :
    (hCellLoop E tid sid rsq hh icell1).store j = hh.store j ∧
    (hCellLoop E tid sid rsq hh icell1).next = hh.next := by
  unfold hCellLoop
  dsimp only
  split_ifs
  · exact hxLoop_pres E tid sid rsq _ _ _ _ _ _ _ j h1 h2 hh
  · exact ⟨rfl, rfl⟩

/-- The extension relation of a heap computation over a base heap: the
allocation frontier only grows, and every buffer allocated before the
base frontier keeps its contents. -/
def HeapExt (base hh : NpHeap) : Prop :=
  base.next ≤ hh.next ∧ ∀ j, j < base.next → hh.store j = base.store j

theorem HeapExt.refl (h : NpHeap) : HeapExt h h :=
  ⟨le_refl _, fun _ _ => rfl⟩

theorem HeapExt.alloc (base hh : NpHeap) (c : List ℚ) (p : HeapExt base hh) :
    HeapExt base (hh.alloc c).1 := by
  have hb := p.1
  unfold NpHeap.alloc
  refine ⟨by dsimp only; omega, fun j hj => ?_⟩
  dsimp only
  rw [if_neg (by omega)]
  exact p.2 j hj

theorem HeapExt.fancy (base hh : NpHeap) (src : ℕ) (idx : List ℕ)
    (p : HeapExt base hh) : HeapExt base (npFancyIndex hh src idx).1 :=
  HeapExt.alloc base hh _ p

theorem HeapExt.mainLoop (base : NpHeap) (E : Env) (tid sid : ℕ) (rsq : ℚ)
    (a b : ℤ) (ht : base.next ≤ tid) (hs : base.next ≤ sid) (hh : NpHeap)
    (p : HeapExt base hh) :
    HeapExt base ((intRange a b).foldl (hCellLoop E tid sid rsq) hh) := by
  apply foldl_preserves _ (HeapExt base) _ ?_ hh p
  intro c i _ hc
  constructor
  · rw [(hCellLoop_pres E tid sid rsq i (tid + sid + 1)
      (by omega) (by omega) c).2]
    exact hc.1
  · intro j hj
    rw [(hCellLoop_pres E tid sid rsq i j (by omega) (by omega) c).1]
    exact hc.2 j hj

/-- C10: the engine never modifies a pre-existing buffer - in
particular the seven caller-supplied coordinate and weight arrays: the
sort step copies them into freshly allocated buffers (numpy advanced
indexing always copies), the accumulation writes go only into the
freshly allocated tensor and weight-sum buffers, and the un-sort step
allocates fresh output buffers. Every buffer id below the initial
allocation frontier holds the same contents after the call. -/
theorem c10_inputs_left_unmodified (h : NpHeap) (dm : DoubleMesh)
    (x1id y1id z1id x2id y2id z2id w2id : ℕ) (rsmooth : ℚ)
    (cell1_tuple : ℤ × ℤ) (j : ℕ) (hj : j < h.next) :
    ((heap_engine h dm x1id y1id z1id x2id y2id z2id w2id rsmooth
      cell1_tuple).1).store j = h.store j := by
  unfold heap_engine
  dsimp only
  refine (HeapExt.alloc h _ _ (HeapExt.alloc h _ _ (HeapExt.mainLoop h _ _ _ _
    _ _ ?_ ?_ _ (HeapExt.alloc h _ _ (HeapExt.alloc h _ _ (HeapExt.fancy h _ _ _
    (HeapExt.fancy h _ _ _ (HeapExt.fancy h _ _ _ (HeapExt.fancy h _ _ _
    (HeapExt.fancy h _ _ _ (HeapExt.fancy h _ _ _ (HeapExt.fancy h _ _ _
    (HeapExt.refl h))))))))))))).2 j hj
  · show h.next ≤ h.next + 7
    omega
  · show h.next ≤ h.next + 8
    omega

/-- A concrete pre-populated heap for the C10 witness. -/
def npHeapW : NpHeap := ⟨fun _ => [0], 7⟩

/-- C10 witness: on a concrete heap holding seven input buffers, buffer
0 is unchanged by the engine call. -/
theorem c10_inputs_left_unmodified_witness :
    ((heap_engine npHeapW dmC3 0 1 2 3 4 5 6 1 (0, 1)).1).store 0 =
      npHeapW.store 0 :=
  c10_inputs_left_unmodified npHeapW dmC3 0 1 2 3 4 5 6 1 (0, 1) 0 (by decide)

end Halotools
